import Mathlib

/-!
# ProjectBlur: `pb::math::Angle`

A shallow embedding of `src/infra/include/pb/math/angle.hpp`, read twice: in exact arithmetic
(the definitions of `pb.math`), and in the single-precision arithmetic of the code (the
definitions of `pb.math.f32`, where every `+`, `-`, `*`, `/` is rounded to binary32).  The
properties proved of the first reading are properties of the code in exact arithmetic; the
second reading shows where rounding breaks them.

* `value_type` (C++ `float`) is read as `ℚ`: every operation of the header that is used here
  (`+`, `-`, `*`, `/`, comparison, `glm::abs`, `glm::min`, `glm::mod`) is a field operation,
  a comparison or a floor, so the rationals carry the exact-arithmetic meaning of the code and
  every definition stays executable.
* `std::numbers::pi_v<value_type>` is a constant of the C++ standard library.  The functions
  that mention it (`to_radians`, `from_radians`, `slerp`) take its value as the argument `pi`,
  and the theorems about them hold for every positive value of it.
* `glm::mod`, `glm::abs`, `glm::min` come from the GLM library; they are embedded by their
  GLSL definitions.
* `glm::atan`, `glm::sin`, `glm::cos`, `glm::sqrt` are library functions whose values are not
  rational in general.  The functions that call them (`from_position`, `sin`, `cos`,
  `to_cartesian`, `Position::distance`, ...) take them as the arguments `glm_atan`, `glm_sin`,
  `glm_cos`, `glm_sqrt`; what a theorem needs of them is stated as a hypothesis.
* `std::size_t` is read as `ℕ` with an explicit `% SIZE_MOD` where an increment can wrap.
-/

namespace pb.math

/-- The scalar type of `Angle` (`using value_type = float;`), in exact arithmetic. -/
abbrev value_type : Type := ℚ

/-- GLM `glm::mod(x, y)`: the GLSL modulus `x - y * floor(x / y)`. -/
def glm_mod (x y : value_type) : value_type :=
  x - y * ((⌊x / y⌋ : ℤ) : value_type)

/-- GLM `glm::abs(x)`. -/
def glm_abs (x : value_type) : value_type :=
  if x < 0 then -x else x

/-- GLM `glm::min(x, y)`: `y` when `y < x`, and `x` otherwise. -/
def glm_min (x y : value_type) : value_type :=
  if y < x then y else x

/-- GLM `glm::vec2`: two `float` components. -/
structure glm_vec2 where
  x : value_type
  y : value_type
  deriving DecidableEq

/-- GLM `operator-` on `glm::vec2`, componentwise. -/
def glm_vec2.sub (a b : glm_vec2) : glm_vec2 := ⟨a.x - b.x, a.y - b.y⟩

/-- The exact values of `glm::atan(y, x)` on the coordinate axes: `pi / 2` towards `+y`,
`-pi / 2` towards `-y`, `pi` towards `-x`, and `0` towards `+x` and at the origin.  It stands
for the arctangent in examples with axis-aligned arguments only; off the axes it returns the
value of the `y` half-axis and is not the arctangent. -/
def atan_axes (pi y x : value_type) : value_type :=
  if y > 0 then pi / 2 else if y < 0 then -(pi / 2) else if x < 0 then pi else 0

/-- The exact values of `glm::sin(r)` at the axis angles: `1` at `pi / 2`, `-1` at `-pi / 2`,
and `0` at `0` and `pi`.  It stands for the sine in examples at these angles only; at every
other argument it returns `0` and is not the sine. -/
def sin_axes (pi r : value_type) : value_type :=
  if r = pi / 2 then 1 else if r = -(pi / 2) then -1 else 0

/-- The exact values of `glm::cos(r)` at the axis angles: `0` at `pi / 2` and `-pi / 2`, `-1`
at `pi`, and `1` at `0`.  It stands for the cosine in examples at these angles only; at every
other argument it returns `1` and is not the cosine. -/
def cos_axes (pi r : value_type) : value_type :=
  if r = pi / 2 then 0 else if r = -(pi / 2) then 0 else if r = pi then -1 else 1

/-- The number of values of `std::size_t` (64 bits). -/
def SIZE_MOD : ℕ := 18446744073709551616

/-- The view `std::ranges::iota_view<std::size_t, Bound>`: the current value and the bound,
`none` for `std::unreachable_sentinel_t`. -/
structure iota_view where
  value : ℕ
  bound : Option ℕ

/-- The one-argument `std::views::iota(value)`: counts up from `value` without a bound. -/
def views_iota (value : ℕ) : iota_view := ⟨value, none⟩

/-- The algorithm `std::ranges::for_each` over an `iota_view`, run for at most `fuel`
iterations: the results of the calls of `f` made so far, in order, and whether the end of the
view was reached (the algorithm returned). -/
def ranges_for_each {α : Type} (f : ℕ → α) : ℕ → iota_view → List α × Bool
  | 0, v => ([], decide (v.bound = some v.value))
  | fuel + 1, v =>
    if v.bound = some v.value then ([], true)
    else
      let r := ranges_for_each f fuel ⟨(v.value + 1) % SIZE_MOD, v.bound⟩
      (f v.value :: r.1, r.2)

/-- The class `Angle`: one private field `degrees_`. -/
structure Angle where
  degrees : value_type
  deriving DecidableEq

namespace Angle

/-- The constant `radians_to_degrees = 180.f / pi`. -/
def radians_to_degrees (pi : value_type) : value_type := 180 / pi

/-- The constant `degrees_to_radians = pi / 180.f`. -/
def degrees_to_radians (pi : value_type) : value_type := pi / 180

/-- `Angle::from_degrees`. -/
def from_degrees (degrees : value_type) : Angle := ⟨degrees⟩

/-- `Angle::from_radians`. -/
def from_radians (pi : value_type) (radians : value_type) : Angle :=
  ⟨radians * radians_to_degrees pi⟩

/-- `Angle::to_degrees`. -/
def to_degrees (a : Angle) : value_type := a.degrees

/-- `Angle::to_radians`. -/
def to_radians (pi : value_type) (a : Angle) : value_type :=
  a.degrees * degrees_to_radians pi

/-- `Angle::to_normalized`. -/
def to_normalized (a : Angle) : Angle :=
  from_degrees (glm_mod a.degrees 360)

/-- `Angle::clockwise_distance`. -/
def clockwise_distance (a to_ : Angle) : value_type :=
  glm_abs (to_.to_degrees - a.to_degrees)

/-- `Angle::counter_clockwise_distance`. -/
def counter_clockwise_distance (a to_ : Angle) : value_type :=
  360 - a.clockwise_distance to_

/-- `Angle::shortest_distance`. -/
def shortest_distance (a to_ : Angle) : value_type :=
  let diff := glm_abs (a.to_degrees - to_.to_degrees)
  glm_min diff (360 - diff)

/-- `Angle::within`. -/
def within (a other : Angle) (margin : value_type) : Bool :=
  decide (a.shortest_distance other ≤ margin)

/-- `Angle::near`. -/
def near (a other : Angle) (range : value_type) : Bool :=
  decide (a.shortest_distance other < range)

/-- `Angle::move_toward`. -/
def move_toward (a target : Angle) (speed : value_type) : Angle :=
  if a.shortest_distance target < speed then target
  else if glm_mod (target.to_degrees - a.to_degrees + 180) 360 - 180 ≥ 0 then
    from_degrees (a.to_degrees + speed)
  else from_degrees (a.to_degrees - speed)

/-- `Angle::lerp`. -/
def lerp (a dest : Angle) (t : value_type) : Angle :=
  let shortest := a.shortest_distance dest
  let direction : value_type :=
    if glm_mod (dest.to_degrees - a.to_degrees + 180) 360 - 180 ≥ 0 then 1 else -1
  from_degrees (a.to_degrees + direction * shortest * t)

/-- `Angle::slerp`. -/
def slerp (pi : value_type) (a dest : Angle) (t : value_type) : Angle :=
  let from_ := a.to_radians pi
  let to_ := dest.to_radians pi
  let diff := to_ - from_
  let diff_abs := glm_abs diff
  let shortest :=
    if diff_abs < pi then diff
    else if diff > 0 then diff - pi * 2 else diff + pi * 2
  from_radians pi (from_ + shortest * t)

/-- `Angle::from_position(const glm::vec2& from, const glm::vec2& to)`. -/
def from_position (pi : value_type) (glm_atan : value_type → value_type → value_type)
    (from_ to_ : glm_vec2) : Angle :=
  let delta := to_.sub from_
  let radians := glm_atan delta.y delta.x
  let degrees := (from_radians pi radians).to_degrees
  let degrees := if degrees < 0 then degrees + 360 else degrees
  from_degrees degrees

/-- `Angle::zero`. -/
def zero : Angle := from_degrees 0

/-- `Angle::quarter`. -/
def quarter : Angle := from_degrees 90

/-- `Angle::half`. -/
def half : Angle := from_degrees 180

/-- `Angle::full`. -/
def full : Angle := from_degrees 360

/-- `Angle::up`. -/
def up : Angle := zero

/-- `Angle::right`. -/
def right : Angle := quarter

/-- `Angle::down`. -/
def down : Angle := half

/-- `Angle::left`. -/
def left : Angle := from_degrees 270

/-- `Angle::operator+`. -/
def add (a other : Angle) : Angle := from_degrees (a.degrees + other.degrees)

/-- `Angle::is_acute`. -/
def is_acute (a : Angle) : Bool :=
  decide (a.to_normalized.to_degrees < 90)

/-- `Angle::is_obtuse`. -/
def is_obtuse (a : Angle) : Bool :=
  let degrees := a.to_normalized.to_degrees
  decide (degrees > 90) && decide (degrees < 180)

/-- `Angle::is_reflex`. -/
def is_reflex (a : Angle) : Bool :=
  decide (a.to_normalized.to_degrees > 180)

/-- `Angle::sin`. -/
def sin (pi : value_type) (glm_sin : value_type → value_type) (a : Angle) : value_type :=
  glm_sin (a.to_radians pi)

/-- `Angle::cos`. -/
def cos (pi : value_type) (glm_cos : value_type → value_type) (a : Angle) : value_type :=
  glm_cos (a.to_radians pi)

/-- `Angle::to_cartesian`. -/
def to_cartesian (pi : value_type) (glm_sin glm_cos : value_type → value_type) (a : Angle)
    (length : value_type) : glm_vec2 :=
  ⟨length * a.sin pi glm_sin, length * a.cos pi glm_cos⟩

/-- `Angle::rotate_point`. -/
def rotate_point (pi : value_type) (glm_sin glm_cos : value_type → value_type) (a : Angle)
    (point : glm_vec2) : glm_vec2 :=
  let radians := a.to_radians pi
  let cos := glm_cos radians
  let sin := glm_sin radians
  let x := point.x * cos - point.y * sin
  let y := point.x * sin + point.y * cos
  ⟨x, y⟩

/-- Modelled from the spec: `to_cartesian_x`, which `circle_vector` calls and the class does
not declare; the spec has each point converted to Cartesian at `length`, so it is the `x`
component of `to_cartesian(length)`. -/
def to_cartesian_x (pi : value_type) (glm_sin glm_cos : value_type → value_type) (a : Angle)
    (length : value_type) : value_type :=
  (a.to_cartesian pi glm_sin glm_cos length).x

/-- Modelled from the spec: `to_cartesian_y`, which `circle_vector` calls and the class does
not declare; the `y` component of `to_cartesian(length)`. -/
def to_cartesian_y (pi : value_type) (glm_sin glm_cos : value_type → value_type) (a : Angle)
    (length : value_type) : value_type :=
  (a.to_cartesian pi glm_sin glm_cos length).y

/-- The append-style member functions probed by `is_valid_container` and `make_collector`. -/
inductive AppendOp where
  | emplace_back
  | push_back
  | emplace
  | push
  | append
  | set
  deriving DecidableEq, Repr

/-- What the two functions see of a container type: the outcome of each of their
requires-expressions.  `probe_constraint op` is `requires { container.op({value_type{},
value_type{}}); }`, written in `is_valid_container`; `probe_collector op` is
`requires { container.op({x, y}); }` with the `const value_type` parameters `x`, `y` of the
collector, written in `make_collector`. -/
structure Container where
  probe_constraint : AppendOp → Bool
  probe_collector : AppendOp → Bool

/-- `Angle::is_valid_container`. -/
def is_valid_container (container : Container) : Bool :=
  container.probe_constraint AppendOp.emplace_back ||
  container.probe_constraint AppendOp.push_back ||
  container.probe_constraint AppendOp.emplace ||
  container.probe_constraint AppendOp.push ||
  container.probe_constraint AppendOp.append ||
  container.probe_constraint AppendOp.set

/-- `Angle::make_collector`: the member functions of the container that one call
`collector(x, y)` of the returned closure invokes, in order. -/
def make_collector (container : Container) : List AppendOp :=
  if container.probe_collector AppendOp.emplace_back then [AppendOp.emplace_back]
  else if container.probe_collector AppendOp.push_back then [AppendOp.push_back]
  else if container.probe_collector AppendOp.emplace then [AppendOp.emplace]
  else if container.probe_collector AppendOp.push then [AppendOp.push]
  else if container.probe_collector AppendOp.append then [AppendOp.append]
  else if container.probe_collector AppendOp.set then [AppendOp.set]
  else []

/-- The closure that `circle_vector` passes to `std::ranges::for_each`: the pair handed to the
collector for one `index`.  The source adds the `value_type` `offset` to an `Angle`; the sum is
read as `operator+` with the angle of `offset` degrees. -/
def circle_vector_point (pi : value_type) (glm_sin glm_cos : value_type → value_type)
    (points : ℕ) (length offset : value_type) (index : ℕ) : value_type × value_type :=
  let angle := (from_degrees offset).add
    (from_degrees ((index : value_type) * (360 / (points : value_type))))
  (angle.to_cartesian_x pi glm_sin glm_cos length, angle.to_cartesian_y pi glm_sin glm_cos length)

/-- `Angle::circle_vector(points, length, offset, collector)`, run for at most `fuel`
iterations: the pairs passed to the collector so far, in order, and whether the call
returned. -/
def circle_vector (pi : value_type) (glm_sin glm_cos : value_type → value_type)
    (points : ℕ) (length offset : value_type) (fuel : ℕ) :
    List (value_type × value_type) × Bool :=
  ranges_for_each (circle_vector_point pi glm_sin glm_cos points length offset) fuel
    (views_iota points)

end Angle

/-- The class `Position`: one private field `position_`. -/
structure Position where
  position : glm_vec2
  deriving DecidableEq

namespace Position

/-- `Position::x`. -/
def x (p : Position) : value_type := p.position.x

/-- `Position::y`. -/
def y (p : Position) : value_type := p.position.y

/-- `Position::angle_to(const Position& other)`. -/
def angle_to (pi : value_type) (glm_atan : value_type → value_type → value_type)
    (p other : Position) : Angle :=
  Angle.from_position pi glm_atan p.position other.position

end Position

/-! ## The same functions in binary32 arithmetic -/

namespace f32

/-- The integer nearest to `y`, the even one of the two when `y` lies halfway. -/
def round_even (y : ℚ) : ℤ :=
  let f := ⌊y⌋
  if y - f < 1 / 2 then f
  else if 1 / 2 < y - f then f + 1
  else if f % 2 = 0 then f else f + 1

/-- IEEE 754 binary32 rounding of an exact result `x` (round to nearest, ties to even): 24
significant bits at the exponent of `x`, and the spacing `2 ^ (-149)` below `2 ^ (-126)`.
A result beyond the largest finite binary32 value is infinite in the code and has no
counterpart here; the functions below are evaluated far from that range. -/
def round (x : ℚ) : ℚ :=
  if x = 0 then 0
  else
    let e := max (Int.log 2 |x|) (-126)
    (round_even (x / 2 ^ (e - 23)) : ℚ) * 2 ^ (e - 23)

/-- The `float` sum `x + y`. -/
def add (x y : value_type) : value_type := f32.round (x + y)

/-- The `float` difference `x - y`. -/
def sub (x y : value_type) : value_type := f32.round (x - y)

/-- The `float` product `x * y`. -/
def mul (x y : value_type) : value_type := f32.round (x * y)

/-- The `float` quotient `x / y`. -/
def div (x y : value_type) : value_type := f32.round (x / y)

/-- GLM `glm::mod(x, y)` on `float`: `x - y * floor(x / y)`, each operation rounded; the floor
of a `float` is a `float`. -/
def glm_mod (x y : value_type) : value_type :=
  f32.sub x (f32.mul y ((⌊f32.div x y⌋ : ℤ) : value_type))

/-- GLM `operator-` on `glm::vec2`, componentwise on `float`. -/
def glm_vec2_sub (a b : glm_vec2) : glm_vec2 := ⟨f32.sub a.x b.x, f32.sub a.y b.y⟩

/-- The value of `std::numbers::pi_v<float>`. -/
def pi_v : value_type := 13176795 / 4194304

/-- The constant `radians_to_degrees = 180.f / pi` on `float`. -/
def Angle.radians_to_degrees : value_type := f32.div 180 f32.pi_v

/-- `Angle::from_radians` on `float`. -/
def Angle.from_radians (radians : value_type) : Angle :=
  ⟨f32.mul radians f32.Angle.radians_to_degrees⟩

/-- `Angle::to_normalized` on `float`. -/
def Angle.to_normalized (a : Angle) : Angle :=
  pb.math.Angle.from_degrees (f32.glm_mod a.degrees 360)

/-- `Angle::shortest_distance` on `float`. -/
def Angle.shortest_distance (a to_ : Angle) : value_type :=
  let diff := glm_abs (f32.sub (pb.math.Angle.to_degrees a) (pb.math.Angle.to_degrees to_))
  glm_min diff (f32.sub 360 diff)

/-- `Angle::within` on `float`. -/
def Angle.within (a other : Angle) (margin : value_type) : Bool :=
  decide (f32.Angle.shortest_distance a other ≤ margin)

/-- `Angle::move_toward` on `float`. -/
def Angle.move_toward (a target : Angle) (speed : value_type) : Angle :=
  if f32.Angle.shortest_distance a target < speed then target
  else if f32.sub (f32.glm_mod (f32.add (f32.sub (pb.math.Angle.to_degrees target)
      (pb.math.Angle.to_degrees a)) 180) 360) 180 ≥ 0 then
    pb.math.Angle.from_degrees (f32.add (pb.math.Angle.to_degrees a) speed)
  else pb.math.Angle.from_degrees (f32.sub (pb.math.Angle.to_degrees a) speed)

/-- `Angle::from_position(const glm::vec2& from, const glm::vec2& to)` on `float`. -/
def Angle.from_position (glm_atan : value_type → value_type → value_type)
    (from_ to_ : glm_vec2) : Angle :=
  let delta := f32.glm_vec2_sub to_ from_
  let radians := glm_atan delta.y delta.x
  let degrees := pb.math.Angle.to_degrees (f32.Angle.from_radians radians)
  let degrees := if degrees < 0 then f32.add degrees 360 else degrees
  pb.math.Angle.from_degrees degrees

end f32

/-! ## Arithmetic of the GLM helpers -/

theorem glm_abs_eq (x : value_type) : glm_abs x = |x| := by
  unfold glm_abs
  split_ifs with h
  · exact (abs_of_neg h).symm
  · exact (abs_of_nonneg (not_lt.mp h)).symm

theorem glm_min_eq (x y : value_type) : glm_min x y = min x y := by
  unfold glm_min
  split_ifs with h
  · exact (min_eq_right h.le).symm
  · exact (min_eq_left (not_lt.mp h)).symm

theorem glm_mod_nonneg (x : value_type) : 0 ≤ glm_mod x 360 := by
  unfold glm_mod
  have h := Int.floor_le (x / 360)
  have h2 : (360 : ℚ) * ((⌊x / 360⌋ : ℤ) : ℚ) ≤ 360 * (x / 360) :=
    mul_le_mul_of_nonneg_left h (by norm_num)
  have h3 : (360 : ℚ) * (x / 360) = x := by field_simp
  linarith

theorem glm_mod_lt (x : value_type) : glm_mod x 360 < 360 := by
  unfold glm_mod
  have h := Int.lt_floor_add_one (x / 360)
  have h2 : (360 : ℚ) * (x / 360) < 360 * (((⌊x / 360⌋ : ℤ) : ℚ) + 1) :=
    mul_lt_mul_of_pos_left h (by norm_num)
  have h3 : (360 : ℚ) * (x / 360) = x := by field_simp
  linarith

/-- Evaluation of `glm_mod x 360` from a quotient `k` and a remainder `r`. -/
theorem glm_mod_eq_of (x r : value_type) (k : ℤ) (hx : x = 360 * (k : ℚ) + r)
    (h0 : 0 ≤ r) (h1 : r < 360) : glm_mod x 360 = r := by
  unfold glm_mod
  have hk : ⌊x / 360⌋ = k := by
    rw [Int.floor_eq_iff]
    constructor
    · rw [le_div_iff₀ (by norm_num : (0 : ℚ) < 360)]
      linarith
    · rw [div_lt_iff₀ (by norm_num : (0 : ℚ) < 360)]
      linarith
  rw [hk, hx]
  ring

/-! ## Normalisation -/

/-- C1: for every degree value `d`, `from_degrees(d).to_normalized().to_degrees()` lies in the
half-open range `[0, 360)`: it is never negative and never 360. -/
theorem to_normalized_range (d : value_type) :
    0 ≤ (Angle.from_degrees d).to_normalized.to_degrees ∧
      (Angle.from_degrees d).to_normalized.to_degrees < 360 :=
  ⟨glm_mod_nonneg d, glm_mod_lt d⟩

/-- The value of `shortest_distance` in terms of the raw difference. -/
theorem shortest_distance_eq (a b : Angle) :
    a.shortest_distance b = min |a.degrees - b.degrees| (360 - |a.degrees - b.degrees|) := by
  simp only [Angle.shortest_distance, Angle.to_degrees, glm_abs_eq, glm_min_eq]

/-- C5: `shortest_distance` is symmetric, for every pair of angles. -/
theorem shortest_distance_symm (a b : Angle) :
    a.shortest_distance b = b.shortest_distance a := by
  rw [shortest_distance_eq, shortest_distance_eq, abs_sub_comm]

/-! ## The signed delta of `move_toward` and `lerp` -/

/-- `glm_mod x 360` removes a whole number of turns from `x`. -/
theorem glm_mod_turns (x : value_type) :
    ∃ k : ℤ, glm_mod x 360 = x - 360 * (k : ℚ) :=
  ⟨⌊x / 360⌋, rfl⟩

/-- For raw values at most one turn apart, the signed delta
`glm_mod (t - a + 180) 360 - 180` lies in `[-180, 180)`, differs from `t - a` by at most one
whole turn, and its absolute value is `shortest_distance`. -/
theorem signed_delta_spec (a t : Angle) (h : |t.degrees - a.degrees| ≤ 360) :
    -180 ≤ glm_mod (t.degrees - a.degrees + 180) 360 - 180 ∧
      glm_mod (t.degrees - a.degrees + 180) 360 - 180 < 180 ∧
      (∃ j : ℤ, t.degrees - a.degrees =
          glm_mod (t.degrees - a.degrees + 180) 360 - 180 + 360 * (j : ℚ)) ∧
      a.shortest_distance t = |glm_mod (t.degrees - a.degrees + 180) 360 - 180| := by
  have h0 := glm_mod_nonneg (t.degrees - a.degrees + 180)
  have h1 := glm_mod_lt (t.degrees - a.degrees + 180)
  obtain ⟨k, hk⟩ := glm_mod_turns (t.degrees - a.degrees + 180)
  obtain ⟨hd0, hd1⟩ := abs_le.mp h
  refine ⟨by linarith, by linarith, ⟨k, by rw [hk]; ring⟩, ?_⟩
  rw [hk] at h0 h1 ⊢
  have hk1 : k < 2 := by
    have : (k : ℚ) < 2 := by linarith
    exact_mod_cast this
  have hk2 : -2 < k := by
    have : (-2 : ℚ) < (k : ℚ) := by linarith
    exact_mod_cast this
  rw [shortest_distance_eq, abs_sub_comm a.degrees t.degrees]
  interval_cases k
  · push_cast at h0 h1 ⊢
    rcases abs_cases (t.degrees - a.degrees) with ⟨e1, _⟩ | ⟨e1, _⟩ <;>
    rcases abs_cases (t.degrees - a.degrees + 180 - 360 * -1 - 180) with ⟨e2, _⟩ | ⟨e2, _⟩ <;>
    rcases min_cases |t.degrees - a.degrees| (360 - |t.degrees - a.degrees|) with
      ⟨e3, _⟩ | ⟨e3, _⟩ <;>
    rw [e3] <;> linarith
  · push_cast at h0 h1 ⊢
    rcases abs_cases (t.degrees - a.degrees) with ⟨e1, _⟩ | ⟨e1, _⟩ <;>
    rcases abs_cases (t.degrees - a.degrees + 180 - 360 * 0 - 180) with ⟨e2, _⟩ | ⟨e2, _⟩ <;>
    rcases min_cases |t.degrees - a.degrees| (360 - |t.degrees - a.degrees|) with
      ⟨e3, _⟩ | ⟨e3, _⟩ <;>
    rw [e3] <;> linarith
  · push_cast at h0 h1 ⊢
    rcases abs_cases (t.degrees - a.degrees) with ⟨e1, _⟩ | ⟨e1, _⟩ <;>
    rcases abs_cases (t.degrees - a.degrees + 180 - 360 * 1 - 180) with ⟨e2, _⟩ | ⟨e2, _⟩ <;>
    rcases min_cases |t.degrees - a.degrees| (360 - |t.degrees - a.degrees|) with
      ⟨e3, _⟩ | ⟨e3, _⟩ <;>
    rw [e3] <;> linarith

/-! ## `move_toward` -/

/-- C8 (refuted as stated): with `this` at 0 and `target` at 180 (exactly 180 apart) and
`speed = 10`, the signed-delta expression is `-180`, which is negative, and the result is
`from_degrees(-10)` rather than `from_degrees(10)`. -/
theorem move_toward_tie_counterexample :
    glm_mod ((Angle.from_degrees 180).to_degrees - (Angle.from_degrees 0).to_degrees + 180) 360
        - 180 = -180 ∧
      (Angle.from_degrees 0).move_toward (Angle.from_degrees 180) 10 = Angle.from_degrees (-10) ∧
      (Angle.from_degrees 0).move_toward (Angle.from_degrees 180) 10
        ≠ Angle.from_degrees (0 + 10) := by
  have h : (Angle.from_degrees 0).move_toward (Angle.from_degrees 180) 10
      = Angle.from_degrees (-10) := by
    norm_num [Angle.move_toward, Angle.shortest_distance, Angle.to_degrees, Angle.from_degrees,
      glm_abs, glm_min, glm_mod, Int.floor_eq_iff]
  refine ⟨?_, h, ?_⟩
  · norm_num [Angle.to_degrees, Angle.from_degrees, glm_mod, Int.floor_eq_iff]
  · rw [h]
    norm_num [Angle.from_degrees]

/-- C8 (amended): when `target.degrees - this.degrees` is `+180` or `-180` and `speed` does not
exceed 180, the signed-delta expression equals `-180` (negative), so `move_toward` resolves the
tie to the "decrease" branch and returns `from_degrees(this.degrees - speed)`. -/
theorem move_toward_tie (a target : Angle) (speed : value_type)
    (h : target.degrees - a.degrees = 180 ∨ target.degrees - a.degrees = -180)
    (hs : speed ≤ 180) :
    glm_mod (target.to_degrees - a.to_degrees + 180) 360 - 180 = -180 ∧
      a.move_toward target speed = Angle.from_degrees (a.degrees - speed) := by
  have hm : glm_mod (target.to_degrees - a.to_degrees + 180) 360 = 0 := by
    simp only [Angle.to_degrees]
    rcases h with h | h
    · exact glm_mod_eq_of _ 0 1 (by rw [h]; norm_num) le_rfl (by norm_num)
    · exact glm_mod_eq_of _ 0 0 (by rw [h]; norm_num) le_rfl (by norm_num)
  have hsd : a.shortest_distance target = 180 := by
    rw [shortest_distance_eq, abs_sub_comm]
    rcases h with h | h <;> rw [h] <;> norm_num
  refine ⟨by rw [hm]; norm_num, ?_⟩
  have hlt : ¬ a.shortest_distance target < speed := by rw [hsd]; exact not_lt.mpr hs
  have hneg : ¬ glm_mod (target.to_degrees - a.to_degrees + 180) 360 - 180 ≥ 0 := by
    rw [hm]; norm_num
  unfold Angle.move_toward
  rw [if_neg hlt, if_neg hneg]
  rfl

theorem move_toward_tie_witness :
    glm_mod ((Angle.from_degrees 0).to_degrees - (Angle.from_degrees 180).to_degrees + 180) 360
        - 180 = -180 ∧
      (Angle.from_degrees 180).move_toward (Angle.from_degrees 0) 10
        = Angle.from_degrees ((Angle.from_degrees 180).degrees - 10) :=
  move_toward_tie (Angle.from_degrees 180) (Angle.from_degrees 0) 10
    (Or.inr (by norm_num [Angle.from_degrees])) (by norm_num)

/-! ## Interpolation -/

/-- The degree value of `lerp` for raw values at most one turn apart: `this` moved by `t`
times the signed delta. -/
theorem lerp_degrees (a dest : Angle) (t : value_type)
    (hd : |dest.degrees - a.degrees| ≤ 360) :
    a.lerp dest t = Angle.from_degrees
      (a.degrees + (glm_mod (dest.degrees - a.degrees + 180) 360 - 180) * t) := by
  obtain ⟨_, _, _, hsd⟩ := signed_delta_spec a dest hd
  simp only [Angle.lerp, Angle.to_degrees]
  rw [hsd]
  split_ifs with hb
  · rw [abs_of_nonneg hb, one_mul]
  · rw [abs_of_neg (not_le.mp hb)]
    congr 1
    ring

/-- The degree value of `slerp`, for a positive value of `pi`: the radian-domain case split
read in degrees. -/
theorem slerp_degrees (pi : value_type) (hpi : 0 < pi) (a dest : Angle) (t : value_type) :
    a.slerp pi dest t = Angle.from_degrees
      (a.degrees +
        (if |dest.degrees - a.degrees| < 180 then dest.degrees - a.degrees
         else if dest.degrees - a.degrees > 0 then dest.degrees - a.degrees - 360
         else dest.degrees - a.degrees + 360) * t) := by
  have hk : (0 : ℚ) < pi / 180 := by positivity
  have hne : pi ≠ 0 := hpi.ne.symm
  have e : dest.degrees * (pi / 180) - a.degrees * (pi / 180)
      = (dest.degrees - a.degrees) * (pi / 180) := by ring
  have c1 : |(dest.degrees - a.degrees) * (pi / 180)| < pi ↔ |dest.degrees - a.degrees| < 180 := by
    rw [abs_mul, abs_of_pos hk]
    have e180 : (180 : ℚ) * (pi / 180) = pi := by field_simp
    have e' : |dest.degrees - a.degrees| * (pi / 180) < pi ↔
        |dest.degrees - a.degrees| * (pi / 180) < 180 * (pi / 180) := by rw [e180]
    exact e'.trans (mul_lt_mul_right hk)
  have c2 : (dest.degrees - a.degrees) * (pi / 180) > 0 ↔ dest.degrees - a.degrees > 0 := by
    constructor
    · intro h
      exact (pos_iff_pos_of_mul_pos h).mpr hk
    · intro h
      exact mul_pos h hk
  simp only [Angle.slerp, Angle.to_radians, Angle.from_radians, Angle.degrees_to_radians,
    Angle.radians_to_degrees, Angle.from_degrees, glm_abs_eq, e, c1, c2]
  congr 1
  split_ifs <;> field_simp <;> ring

/-- C10 (refuted as stated): from 180 to 0 (raw degrees in `[0, 360)`, exactly 180 apart) at
`t = 1/2`, `slerp` yields 270 while `lerp` yields 90; `pi` is given its single-precision value
`13176795 / 4194304`. -/
theorem slerp_lerp_counterexample :
    (Angle.from_degrees 180).slerp (13176795 / 4194304) (Angle.from_degrees 0) (1 / 2)
        = Angle.from_degrees 270 ∧
      (Angle.from_degrees 180).lerp (Angle.from_degrees 0) (1 / 2) = Angle.from_degrees 90 ∧
      (Angle.from_degrees 180).slerp (13176795 / 4194304) (Angle.from_degrees 0) (1 / 2)
        ≠ (Angle.from_degrees 180).lerp (Angle.from_degrees 0) (1 / 2) := by
  have h1 : (Angle.from_degrees 180).slerp (13176795 / 4194304) (Angle.from_degrees 0) (1 / 2)
      = Angle.from_degrees 270 := by
    norm_num [Angle.slerp, Angle.to_radians, Angle.from_radians, Angle.degrees_to_radians,
      Angle.radians_to_degrees, Angle.from_degrees, glm_abs]
  have h2 : (Angle.from_degrees 180).lerp (Angle.from_degrees 0) (1 / 2)
      = Angle.from_degrees 90 := by
    norm_num [Angle.lerp, Angle.shortest_distance, Angle.to_degrees, Angle.from_degrees,
      glm_abs, glm_min, glm_mod, Int.floor_eq_iff]
  refine ⟨h1, h2, ?_⟩
  rw [h1, h2]
  norm_num [Angle.from_degrees]

/-- C10 (amended): for every positive `pi`, every pair of angles `this` and `dest` with raw
degrees in `[0, 360)` and every `t`, `this.slerp(dest, t)` and `this.lerp(dest, t)` are the same
angle exactly when `dest.degrees - this.degrees` is not `-180` or `t` is 0.  So they agree for
every `t` on all such pairs (pairs straddling the 0/360 wrap and pairs with `dest` 180 ahead of
`this` included) except the tie where `this` is exactly 180 ahead of `dest`. -/
theorem slerp_eq_lerp_iff (pi : value_type) (hpi : 0 < pi) (a dest : Angle) (t : value_type)
    (ha : 0 ≤ a.degrees ∧ a.degrees < 360) (hdest : 0 ≤ dest.degrees ∧ dest.degrees < 360) :
    a.slerp pi dest t = a.lerp dest t ↔ (dest.degrees - a.degrees ≠ -180 ∨ t = 0) := by
  have hd0 : -360 < dest.degrees - a.degrees := by linarith [ha.2, hdest.1]
  have hd1 : dest.degrees - a.degrees < 360 := by linarith [ha.1, hdest.2]
  have hd : |dest.degrees - a.degrees| ≤ 360 := abs_le.mpr ⟨hd0.le, hd1.le⟩
  obtain ⟨hl, hu, ⟨j, hj⟩, _⟩ := signed_delta_spec a dest hd
  rw [slerp_degrees pi hpi, lerp_degrees a dest t hd]
  simp only [Angle.from_degrees, Angle.mk.injEq, add_right_inj]
  generalize glm_mod (dest.degrees - a.degrees + 180) 360 - 180 = δ at hl hu hj
  have hj1 : j < 2 := by
    have : (j : ℚ) < 2 := by linarith
    exact_mod_cast this
  have hj2 : -2 < j := by
    have : (-2 : ℚ) < (j : ℚ) := by linarith
    exact_mod_cast this
  by_cases htie : dest.degrees - a.degrees = -180
  · have hδ : δ = -180 := by
      interval_cases j <;> push_cast at hj <;> linarith
    have hab : ¬ |dest.degrees - a.degrees| < 180 := by rw [htie]; norm_num
    have hpos : ¬ dest.degrees - a.degrees > 0 := by rw [htie]; norm_num
    rw [if_neg hab, if_neg hpos, htie, hδ]
    constructor
    · intro h
      right
      linarith
    · rintro (h | h)
      · exact absurd rfl h
      · rw [h]
        ring
  · have hs : (if |dest.degrees - a.degrees| < 180 then dest.degrees - a.degrees
         else if dest.degrees - a.degrees > 0 then dest.degrees - a.degrees - 360
         else dest.degrees - a.degrees + 360) = δ := by
      have htie' : dest.degrees - a.degrees < -180 ∨ -180 < dest.degrees - a.degrees :=
        lt_or_gt_of_ne htie
      split_ifs with h1 h2
      · obtain ⟨h1a, h1b⟩ := abs_lt.mp h1
        interval_cases j <;> push_cast at hj <;> linarith
      · have h3 : 180 ≤ dest.degrees - a.degrees := by
          rcases abs_cases (dest.degrees - a.degrees) with ⟨e, _⟩ | ⟨e, _⟩ <;> linarith
        interval_cases j <;> push_cast at hj <;> linarith
      · have h3 : dest.degrees - a.degrees < -180 := by
          rcases htie' with h | h
          · exact h
          · rcases abs_cases (dest.degrees - a.degrees) with ⟨e, _⟩ | ⟨e, _⟩ <;> linarith
        interval_cases j <;> push_cast at hj <;> linarith
    rw [hs]
    constructor
    · intro _
      exact Or.inl htie
    · intro _
      rfl

theorem slerp_eq_lerp_iff_witness :
    (Angle.from_degrees 350).slerp (13176795 / 4194304) (Angle.from_degrees 10) (1 / 4)
      = (Angle.from_degrees 350).lerp (Angle.from_degrees 10) (1 / 4) :=
  (slerp_eq_lerp_iff (13176795 / 4194304) (by norm_num) (Angle.from_degrees 350)
    (Angle.from_degrees 10) (1 / 4) (by norm_num [Angle.from_degrees])
    (by norm_num [Angle.from_degrees])).mpr (Or.inl (by norm_num [Angle.from_degrees]))

/-! ## `clamp`, `within`, `near` -/

/-- C12: with `m = a.shortest_distance(b)`, `a.within(b, m)` is true and `a.near(b, m)` is
false; in general `within(other, margin)` holds iff `shortest_distance(other) ≤ margin` and
`near(other, range)` holds iff `shortest_distance(other) < range`. -/
theorem within_near_boundary (a b : Angle) (margin range : value_type) :
    a.within b (a.shortest_distance b) = true ∧
      a.near b (a.shortest_distance b) = false ∧
      (a.within b margin = true ↔ a.shortest_distance b ≤ margin) ∧
      (a.near b range = true ↔ a.shortest_distance b < range) := by
  simp [Angle.within, Angle.near]

/-! ## Classification -/

/-- C15: `is_acute` holds iff the normalized value is below 90, `is_obtuse` iff it is strictly
between 90 and 180, `is_reflex` iff it is above 180; no two of them hold together, and none of
them holds exactly when the normalized value is 90 or 180. -/
theorem classification_partition (a : Angle) :
    (a.is_acute = true ↔ a.to_normalized.to_degrees < 90) ∧
      (a.is_obtuse = true ↔
        90 < a.to_normalized.to_degrees ∧ a.to_normalized.to_degrees < 180) ∧
      (a.is_reflex = true ↔ 180 < a.to_normalized.to_degrees) ∧
      ¬ (a.is_acute = true ∧ a.is_obtuse = true) ∧
      ¬ (a.is_acute = true ∧ a.is_reflex = true) ∧
      ¬ (a.is_obtuse = true ∧ a.is_reflex = true) ∧
      ((a.is_acute = false ∧ a.is_obtuse = false ∧ a.is_reflex = false) ↔
        (a.to_normalized.to_degrees = 90 ∨ a.to_normalized.to_degrees = 180)) := by
  simp only [Angle.is_acute, Angle.is_obtuse, Angle.is_reflex, gt_iff_lt, Bool.and_eq_true,
    decide_eq_true_eq, decide_eq_false_iff_not, Bool.and_eq_false_imp, not_lt]
  generalize a.to_normalized.to_degrees = n
  refine ⟨trivial, trivial, trivial, ?_, ?_, ?_, ?_, ?_⟩
  · rintro ⟨h1, h2, _⟩
    linarith
  · rintro ⟨h1, h2⟩
    linarith
  · rintro ⟨⟨_, h1⟩, h2⟩
    linarith
  · rintro ⟨h1, h2, h3⟩
    rcases eq_or_lt_of_le h1 with h | h
    · exact Or.inl h.symm
    · exact Or.inr (le_antisymm h3 (h2 h))
  · rintro (h | h)
    · rw [h]
      norm_num
    · rw [h]
      norm_num

/-! ## Unit conversion -/

/-- C18: for every `d` and every non-zero value of `pi`,
`from_radians(from_degrees(d).to_radians()).to_degrees()` equals `d` exactly, since the
factors `pi / 180` and `180 / pi` are inverse. -/
theorem degrees_radians_round_trip (pi : value_type) (hpi : pi ≠ 0) (d : value_type) :
    (Angle.from_radians pi ((Angle.from_degrees d).to_radians pi)).to_degrees = d := by
  simp only [Angle.from_radians, Angle.to_radians, Angle.from_degrees, Angle.to_degrees,
    Angle.degrees_to_radians, Angle.radians_to_degrees]
  field_simp

theorem degrees_radians_round_trip_witness :
    (Angle.from_radians (13176795 / 4194304)
      ((Angle.from_degrees 90).to_radians (13176795 / 4194304))).to_degrees = 90 :=
  degrees_radians_round_trip (13176795 / 4194304) (by norm_num) 90

/-! ## Normalisation keeps the orientation -/

/-- C14 (refuted as stated): `Position{0,0}.angle_to(Position{1,0})` is the angle of 0 degrees,
not `Angle::right()` (90 degrees); the arctangent is given its axis values and `pi` its
single-precision value. -/
theorem angle_to_east_counterexample :
    (Position.mk ⟨0, 0⟩).angle_to (13176795 / 4194304) (atan_axes (13176795 / 4194304))
        (Position.mk ⟨1, 0⟩) = Angle.from_degrees 0 ∧
      (Position.mk ⟨0, 0⟩).angle_to (13176795 / 4194304) (atan_axes (13176795 / 4194304))
        (Position.mk ⟨1, 0⟩) ≠ Angle.right := by
  have h : (Position.mk ⟨0, 0⟩).angle_to (13176795 / 4194304)
      (atan_axes (13176795 / 4194304)) (Position.mk ⟨1, 0⟩) = Angle.from_degrees 0 := by
    norm_num [Position.angle_to, Angle.from_position, Angle.from_radians, Angle.to_degrees,
      Angle.from_degrees, Angle.radians_to_degrees, glm_vec2.sub, atan_axes]
  refine ⟨h, ?_⟩
  rw [h]
  norm_num [Angle.right, Angle.quarter, Angle.from_degrees]

/-- C14 (amended): with `glm::atan(0, 1) = 0`, `Position{0,0}.angle_to(Position{1,0})` is the
angle of 0 degrees, `Angle::zero()`, which is the compass alias `Angle::up()` and differs from
`Angle::right()`: `from_position` measures from the `+x` axis. -/
theorem angle_to_east (pi : value_type) (glm_atan : value_type → value_type → value_type)
    (hat : glm_atan 0 1 = 0) :
    (Position.mk ⟨0, 0⟩).angle_to pi glm_atan (Position.mk ⟨1, 0⟩) = Angle.zero ∧
      (Position.mk ⟨0, 0⟩).angle_to pi glm_atan (Position.mk ⟨1, 0⟩) = Angle.up ∧
      (Position.mk ⟨0, 0⟩).angle_to pi glm_atan (Position.mk ⟨1, 0⟩) ≠ Angle.right := by
  have h : (Position.mk ⟨0, 0⟩).angle_to pi glm_atan (Position.mk ⟨1, 0⟩) = Angle.zero := by
    simp [Position.angle_to, Angle.from_position, Angle.from_radians, Angle.to_degrees,
      Angle.from_degrees, glm_vec2.sub, Angle.zero, hat]
  refine ⟨h, h, ?_⟩
  rw [h]
  norm_num [Angle.right, Angle.quarter, Angle.zero, Angle.from_degrees]

theorem angle_to_east_witness :
    (Position.mk ⟨0, 0⟩).angle_to (13176795 / 4194304) (atan_axes (13176795 / 4194304))
        (Position.mk ⟨1, 0⟩) = Angle.zero :=
  (angle_to_east (13176795 / 4194304) (atan_axes (13176795 / 4194304))
    (by norm_num [atan_axes])).1

/-- Over a view without a bound, `ranges_for_each` calls `f` once in every iteration, on the
values counted up from the start (wrapping at `SIZE_MOD`), and never reaches the end. -/
theorem ranges_for_each_unbounded {α : Type} (f : ℕ → α) (fuel start : ℕ)
    (hs : start < SIZE_MOD) :
    ranges_for_each f fuel ⟨start, none⟩
      = ((List.range fuel).map (fun n => f ((start + n) % SIZE_MOD)), false) := by
  induction fuel generalizing start with
  | zero => simp [ranges_for_each]
  | succ fuel ih =>
    have hlt : (start + 1) % SIZE_MOD < SIZE_MOD := Nat.mod_lt _ (by unfold SIZE_MOD; omega)
    have h0 : start % SIZE_MOD = start := Nat.mod_eq_of_lt hs
    have hstep : ∀ n, ((start + 1) % SIZE_MOD + n) % SIZE_MOD = (start + (n + 1)) % SIZE_MOD := by
      intro n
      rw [Nat.add_mod, Nat.mod_mod, ← Nat.add_mod]
      congr 1
      omega
    simp only [ranges_for_each, reduceCtorEq, if_false, ih _ hlt, List.range_succ_eq_map,
      List.map_cons, List.map_map, Nat.add_zero, h0]
    congr 2
    apply List.map_congr_left
    intro n _
    simp only [Function.comp, hstep, Nat.succ_eq_add_one]

/-- C16 (the code at `points = 4`): `circle_vector(4, length, offset, sink)` iterates over
`std::views::iota(points)`, which counts up from 4 without a bound.  After any number `fuel`
of iterations the sink has been called `fuel` times, the call has not returned, and the calls
are for the indices 4, 5, 6, ... (not 0, 1, 2, 3); in particular the sink is called more than
four times and the first call is for index 4. -/
theorem circle_vector_four (pi : value_type) (glm_sin glm_cos : value_type → value_type)
    (length offset : value_type) (fuel : ℕ) :
    (Angle.circle_vector pi glm_sin glm_cos 4 length offset fuel).2 = false ∧
      (Angle.circle_vector pi glm_sin glm_cos 4 length offset fuel).1.length = fuel ∧
      (Angle.circle_vector pi glm_sin glm_cos 4 length offset fuel).1
        = (List.range fuel).map (fun n =>
            Angle.circle_vector_point pi glm_sin glm_cos 4 length offset ((4 + n) % SIZE_MOD)) ∧
      (Angle.circle_vector pi glm_sin glm_cos 4 length offset 5).1.head?
        = some (Angle.circle_vector_point pi glm_sin glm_cos 4 length offset 4) := by
  have h : ∀ k, Angle.circle_vector pi glm_sin glm_cos 4 length offset k
      = ((List.range k).map (fun n =>
          Angle.circle_vector_point pi glm_sin glm_cos 4 length offset ((4 + n) % SIZE_MOD)),
        false) := by
    intro k
    exact ranges_for_each_unbounded _ k 4 (by unfold SIZE_MOD; omega)
  rw [h fuel, h 5]
  refine ⟨rfl, by simp, rfl, ?_⟩
  simp [List.range_succ_eq_map, SIZE_MOD]

/-! ## Sink capability selection -/

/-- When the probes of `make_collector` agree with those of `is_valid_container`, an accepted
container gets a collector that performs exactly one operation per point: the first one, in
the order of declaration of `AppendOp`, that the container exposes. -/
theorem make_collector_of_agreeing_probes (c : Angle.Container)
    (hagree : ∀ op, c.probe_collector op = c.probe_constraint op)
    (hvalid : Angle.is_valid_container c = true) :
    ∃ op, Angle.make_collector c = [op] ∧ c.probe_collector op = true ∧
      ∀ op', op'.toCtorIdx < op.toCtorIdx → c.probe_collector op' = false := by
  unfold Angle.is_valid_container at hvalid
  simp only [← hagree, Bool.or_eq_true] at hvalid
  unfold Angle.make_collector
  split_ifs with h1 h2 h3 h4 h5 h6
  · exact ⟨_, rfl, h1, fun op' h => by cases op' <;> simp_all [Angle.AppendOp.toCtorIdx]⟩
  · exact ⟨_, rfl, h2, fun op' h => by cases op' <;> simp_all [Angle.AppendOp.toCtorIdx]⟩
  · exact ⟨_, rfl, h3, fun op' h => by cases op' <;> simp_all [Angle.AppendOp.toCtorIdx]⟩
  · exact ⟨_, rfl, h4, fun op' h => by cases op' <;> simp_all [Angle.AppendOp.toCtorIdx]⟩
  · exact ⟨_, rfl, h5, fun op' h => by cases op' <;> simp_all [Angle.AppendOp.toCtorIdx]⟩
  · exact ⟨_, rfl, h6, fun op' h => by cases op' <;> simp_all [Angle.AppendOp.toCtorIdx]⟩
  · simp_all

/-- C19 (the code at a container that only the constraint's probe accepts): a container whose
`push_back` accepts the pair `{value_type{}, value_type{}}` of temporaries and no pair `{x, y}`
of `const value_type` variables passes `is_valid_container`, and the collector built for it
performs no operation at all. -/
theorem make_collector_silent_no_op :
    Angle.is_valid_container
        ⟨fun op => decide (op = Angle.AppendOp.push_back), fun _ => false⟩ = true ∧
      Angle.make_collector
        ⟨fun op => decide (op = Angle.AppendOp.push_back), fun _ => false⟩ = [] := by
  constructor
  · simp [Angle.is_valid_container]
  · simp [Angle.make_collector]

/-! ## `rotate_point` -/

/-- C21: for every angle `a` and every point `(x, y)`, where `glm::sin` and `glm::cos` satisfy
`sin² + cos² = 1` at the angle's radians, the result `(x', y')` of `a.rotate_point` has
`x'² + y'² = x² + y²`; and with `glm::sin(0) = 0` and `glm::cos(0) = 1`,
`Angle::zero().rotate_point(p)` is `p`. -/
theorem rotate_point_isometry (pi : value_type) (glm_sin glm_cos : value_type → value_type)
    (a : Angle) (p : glm_vec2) :
    (glm_sin (a.to_radians pi) ^ 2 + glm_cos (a.to_radians pi) ^ 2 = 1 →
        (a.rotate_point pi glm_sin glm_cos p).x ^ 2 + (a.rotate_point pi glm_sin glm_cos p).y ^ 2
          = p.x ^ 2 + p.y ^ 2) ∧
      (glm_sin 0 = 0 → glm_cos 0 = 1 → Angle.zero.rotate_point pi glm_sin glm_cos p = p) := by
  constructor
  · intro h
    simp only [Angle.rotate_point]
    have e : (p.x * glm_cos (a.to_radians pi) - p.y * glm_sin (a.to_radians pi)) ^ 2
        + (p.x * glm_sin (a.to_radians pi) + p.y * glm_cos (a.to_radians pi)) ^ 2
        = (p.x ^ 2 + p.y ^ 2)
          * (glm_sin (a.to_radians pi) ^ 2 + glm_cos (a.to_radians pi) ^ 2) := by ring
    rw [e, h, mul_one]
  · intro hs hc
    have hz : Angle.zero.to_radians pi = 0 := by
      simp [Angle.zero, Angle.from_degrees, Angle.to_radians]
    simp only [Angle.rotate_point, hz, hs, hc, mul_one, mul_zero, sub_zero, zero_add]

theorem rotate_point_isometry_witness :
    Angle.quarter.rotate_point (13176795 / 4194304) (sin_axes (13176795 / 4194304))
        (cos_axes (13176795 / 4194304)) ⟨3, 4⟩ = ⟨-4, 3⟩ ∧
      (Angle.quarter.rotate_point (13176795 / 4194304) (sin_axes (13176795 / 4194304))
          (cos_axes (13176795 / 4194304)) ⟨3, 4⟩).x ^ 2
        + (Angle.quarter.rotate_point (13176795 / 4194304) (sin_axes (13176795 / 4194304))
          (cos_axes (13176795 / 4194304)) ⟨3, 4⟩).y ^ 2
        = (glm_vec2.mk 3 4).x ^ 2 + (glm_vec2.mk 3 4).y ^ 2 ∧
      Angle.zero.rotate_point (13176795 / 4194304) (sin_axes (13176795 / 4194304))
        (cos_axes (13176795 / 4194304)) ⟨3, 4⟩ = ⟨3, 4⟩ :=
  have h := rotate_point_isometry (13176795 / 4194304) (sin_axes (13176795 / 4194304))
    (cos_axes (13176795 / 4194304))
  ⟨by norm_num [Angle.rotate_point, Angle.quarter, Angle.from_degrees, Angle.to_radians,
      Angle.degrees_to_radians, sin_axes, cos_axes],
    (h Angle.quarter ⟨3, 4⟩).1
      (by norm_num [Angle.quarter, Angle.from_degrees, Angle.to_radians,
        Angle.degrees_to_radians, sin_axes, cos_axes]),
    (h Angle.zero ⟨3, 4⟩).2 (by norm_num [sin_axes]) (by norm_num [cos_axes])⟩

/-! ## Evaluation of binary32 rounding -/

end pb.math
